import Mathlib

/-!
# Verification of the llm-comparison-tool request-gateway core

Shallow embedding of the security and dispatch core of the repository
`DavidFornander/llm-comparison-tool` (TypeScript / Next.js), together with
proofs settling the frozen claims C1..C10.

Conventions of the embedding:
* timestamps (`Date.now()`, `new Date()`) are `Nat` milliseconds, passed
  explicitly as a `now` argument;
* the mutable singleton stores (`Map`s) are association lists threaded as
  explicit state;
* JavaScript string truthiness (`if (s)`) is `s ≠ ""` for strings that are
  present, and absence is `Option.none`;
* external cryptographic primitives (`createHmac(...).digest('hex')`) and the
  platform `new URL(...)` parser are abstract function parameters of the
  definitions that use them;
* fallible code returns `Except` / `Option`.
-/

namespace LlmCompare

/-! ## Small JavaScript-semantics helpers -/

/-- Association-list update with `Map.set` semantics: replaces the binding of
`k` if present (in place), otherwise appends the new binding. -/
def listSet {α : Type} (l : List (String × α)) (k : String) (v : α) :
    List (String × α) :=
  match l with
  | [] => [(k, v)]
  | (k', v') :: rest =>
      if k' = k then (k, v) :: rest else (k', v') :: listSet rest k v

/-- Association-list delete with `Map.delete` semantics. -/
def listDel {α : Type} (l : List (String × α)) (k : String) :
    List (String × α) :=
  match l with
  | [] => []
  | (k', v') :: rest =>
      if k' = k then rest else (k', v') :: listDel rest k

theorem lookup_listSet_self {α : Type} (l : List (String × α)) (k : String)
    (v : α) : (listSet l k v).lookup k = some v := by
  induction l with
  | nil => simp [listSet, List.lookup]
  | cons hd tl ih =>
      obtain ⟨k', v'⟩ := hd
      by_cases h : k' = k
      · simp [listSet, h, List.lookup]
      · have hb : (k == k') = false := beq_eq_false_iff_ne.mpr (Ne.symm h)
        simp [listSet, h, List.lookup, hb, ih]

theorem lookup_listSet_ne {α : Type} (l : List (String × α)) (k k' : String)
    (v : α) (h : k' ≠ k) : (listSet l k v).lookup k' = l.lookup k' := by
  have hb : (k' == k) = false := beq_eq_false_iff_ne.mpr h
  induction l with
  | nil => simp [listSet, List.lookup, hb]
  | cons hd tl ih =>
      obtain ⟨k₀, v₀⟩ := hd
      by_cases h₀ : k₀ = k
      · subst h₀
        simp [listSet, List.lookup, hb]
      · simp only [listSet, if_neg h₀, List.lookup]
        cases hbk : k' == k₀ with
        | true => rfl
        | false => exact ih

theorem lookup_listDel_self {α : Type} (l : List (String × α)) (k : String)
    (hnd : (l.map Prod.fst).Nodup) : (listDel l k).lookup k = none := by
  induction l with
  | nil => simp [listDel, List.lookup]
  | cons hd tl ih =>
      obtain ⟨k', v'⟩ := hd
      simp only [List.map_cons, List.nodup_cons] at hnd
      by_cases h : k' = k
      · subst h
        simp only [listDel, if_pos rfl]
        -- k' no longer occurs in tl, so lookup fails
        clear ih
        induction tl with
        | nil => simp [List.lookup]
        | cons hd₂ tl₂ ih₂ =>
            obtain ⟨k₂, v₂⟩ := hd₂
            simp only [List.map_cons, List.mem_cons, List.nodup_cons] at hnd
            have hk₂ : k₂ ≠ k' := fun h => hnd.1 (h ▸ Or.inl rfl)
            have hb : (k' == k₂) = false := beq_eq_false_iff_ne.mpr (Ne.symm hk₂)
            simp only [List.lookup, hb]
            exact ih₂ ⟨fun hm => hnd.1 (Or.inr hm), hnd.2.2⟩
      · have hb : (k == k') = false := beq_eq_false_iff_ne.mpr (Ne.symm h)
        simp [listDel, h, List.lookup, hb, ih hnd.2]

/-! ## Rate Limiter (`src/lib/security/rate-limiter.ts`) -/

/-- `RateLimitEntry` from `rate-limiter.ts`. -/
structure RateLimitEntry where
  count : Nat
  resetTime : Nat
deriving Repr, DecidableEq

/-- The `RateLimiter` instance state: the `store` map plus configuration. -/
structure RateLimiterState where
  store : List (String × RateLimitEntry)
  windowMs : Nat
  maxRequests : Nat
deriving Repr, DecidableEq

/-- Result shape of `RateLimiter.check`.  `remaining` is an `Int` because
`this.maxRequests - 1` can be negative in JavaScript when `maxRequests = 0`. -/
structure RateLimitResult where
  allowed : Bool
  remaining : Int
  resetTime : Nat
deriving Repr, DecidableEq

/-- `RateLimiter.check` (`rate-limiter.ts:28-62`), with `Date.now()` passed as
`now` and the mutated store returned. -/
def RateLimiter.check (st : RateLimiterState) (identifier : String)
    (now : Nat) : RateLimitResult × RateLimiterState :=
  match st.store.lookup identifier with
  | none =>
      let resetTime := now + st.windowMs
      (⟨true, (st.maxRequests : Int) - 1, resetTime⟩,
       { st with store := listSet st.store identifier ⟨1, resetTime⟩ })
  | some entry =>
      if now > entry.resetTime then
        let resetTime := now + st.windowMs
        (⟨true, (st.maxRequests : Int) - 1, resetTime⟩,
         { st with store := listSet st.store identifier ⟨1, resetTime⟩ })
      else
        let count := entry.count + 1
        let st' := { st with
          store := listSet st.store identifier ⟨count, entry.resetTime⟩ }
        if count > st.maxRequests then
          (⟨false, 0, entry.resetTime⟩, st')
        else
          (⟨true, (st.maxRequests : Int) - count, entry.resetTime⟩, st')

/-- Run `check` for the same identifier at a sequence of times, threading the
store, and collect the per-call results. -/
def RateLimiter.checkSeq (st : RateLimiterState) (identifier : String) :
    List Nat → List RateLimitResult
  | [] => []
  | t :: ts =>
      let (r, st') := RateLimiter.check st identifier t
      r :: RateLimiter.checkSeq st' identifier ts

/-! ## IP Reputation Guard (`src/lib/security/ip-filter.ts`) -/

/-- `IPFilterConfig` from `ip-filter.ts`. -/
structure IPFilterConfig where
  whitelist : List String
  blacklist : List String
  enableDynamicBlocking : Bool
  maxViolationsBeforeBlock : Nat
  blockDurationMs : Nat
deriving Repr, DecidableEq

/-- `IPViolation` from `ip-filter.ts`. -/
structure IPViolation where
  ip : String
  violations : Nat
  blockedUntil : Option Nat
deriving Repr, DecidableEq

/-- The `IPFilter` instance state. -/
structure IPFilterState where
  config : IPFilterConfig
  violations : List (String × IPViolation)
  dynamicBlocks : List (String × Nat)
deriving Repr, DecidableEq

/-- Result shape of `IPFilter.isAllowed`. -/
structure IPAllowResult where
  allowed : Bool
  reason : Option String
deriving Repr, DecidableEq

/-- `IPFilter.isAllowed` (`ip-filter.ts:39-64`).  Mutates the state by lazily
deleting an expired dynamic block, so the updated state is returned. -/
def IPFilter.isAllowed (st : IPFilterState) (ip : String) (now : Nat) :
    IPAllowResult × IPFilterState :=
  if st.config.whitelist.length > 0 ∧ ¬ st.config.whitelist.contains ip then
    (⟨false, some "IP not in whitelist"⟩, st)
  else if st.config.blacklist.contains ip then
    (⟨false, some "IP is blacklisted"⟩, st)
  else if st.config.enableDynamicBlocking then
    match st.dynamicBlocks.lookup ip with
    | some blockUntil =>
        if blockUntil > now then
          (⟨false, some "IP is temporarily blocked"⟩, st)
        else
          (⟨true, none⟩,
           { st with dynamicBlocks := listDel st.dynamicBlocks ip })
    | none => (⟨true, none⟩, st)
  else
    (⟨true, none⟩, st)

/-- `IPFilter.recordViolation` (`ip-filter.ts:69-91`); the `reason` argument is
unused by the state transition and is omitted. -/
def IPFilter.recordViolation (st : IPFilterState) (ip : String) (now : Nat) :
    IPFilterState :=
  if ¬ st.config.enableDynamicBlocking then st
  else
    let violation := (st.violations.lookup ip).getD ⟨ip, 0, none⟩
    let violation := { violation with violations := violation.violations + 1 }
    if violation.violations ≥ st.config.maxViolationsBeforeBlock then
      let blockUntil := now + st.config.blockDurationMs
      { st with
        dynamicBlocks := listSet st.dynamicBlocks ip blockUntil,
        violations := listSet st.violations ip
          { violation with blockedUntil := some blockUntil, violations := 0 } }
    else
      { st with violations := listSet st.violations ip violation }

/-! ### Claim C6: fixed-window rate limiting -/

theorem checkSeq_in_window (st : RateLimiterState) (id : String)
    (k R : Nat) (h : st.store.lookup id = some ⟨k, R⟩)
    (ts : List Nat) (hts : ∀ t ∈ ts, t ≤ R) :
    (RateLimiter.checkSeq st id ts).map RateLimitResult.allowed =
      (List.range ts.length).map
        (fun i => decide (k + i + 1 ≤ st.maxRequests)) := by
  induction ts generalizing st k with
  | nil => simp [RateLimiter.checkSeq]
  | cons t ts ih =>
      have ht : ¬ t > R := not_lt.mpr (hts t (List.mem_cons_self t ts))
      by_cases hc : k + 1 > st.maxRequests
      · simp only [RateLimiter.checkSeq, RateLimiter.check, h, ht, if_false,
          if_pos hc, List.map_cons, List.length_cons, List.range_succ_eq_map,
          List.map_map]
        refine List.cons_eq_cons.mpr ⟨?_, ?_⟩
        · simp [not_le.mpr hc]
        · have := ih { st with
              store := listSet st.store id ⟨k + 1, R⟩ } (k + 1)
            (lookup_listSet_self _ _ _)
            (fun t' ht' => hts t' (List.mem_cons_of_mem _ ht'))
          simp only [this]
          apply List.map_congr_left
          intro i _
          simp only [Function.comp]
          rw [decide_eq_decide]
          omega
      · simp only [RateLimiter.checkSeq, RateLimiter.check, h, ht, if_false,
          if_neg hc, List.map_cons, List.length_cons, List.range_succ_eq_map,
          List.map_map]
        refine List.cons_eq_cons.mpr ⟨?_, ?_⟩
        · simp [not_lt.mp hc]
        · have := ih { st with
              store := listSet st.store id ⟨k + 1, R⟩ } (k + 1)
            (lookup_listSet_self _ _ _)
            (fun t' ht' => hts t' (List.mem_cons_of_mem _ ht'))
          simp only [this]
          apply List.map_congr_left
          intro i _
          simp only [Function.comp]
          rw [decide_eq_decide]
          omega

/-- **C6.** The rate limiter's `check` follows the fixed-window algorithm:
(1) on first sight of an identifier a fresh window is opened with `count = 1`
and `resetAt = now + windowDuration` and the call is allowed; (2) likewise once
`now` exceeds the stored `resetAt` — the counter restarts at 1 rather than
accumulating; (3) otherwise the count is incremented and the call is rejected
with `allowed = false` exactly when the incremented count exceeds
`maxRequests`; (4) consequently, for calls within a single window the first
`maxRequests` calls are allowed and every later one (in particular the
`(maxRequests+1)`-th) is rejected. -/
theorem rateLimiter_check_fixed_window
    (st : RateLimiterState) (id : String) (now : Nat)
    (hmax : 1 ≤ st.maxRequests) :
    -- (1) first sight: fresh window, count 1, allowed
    (st.store.lookup id = none →
      RateLimiter.check st id now =
        (⟨true, (st.maxRequests : Int) - 1, now + st.windowMs⟩,
         { st with store := listSet st.store id ⟨1, now + st.windowMs⟩ })) ∧
    -- (2) now exceeds the stored resetAt: window replaced, count restarts at 1
    (∀ e, st.store.lookup id = some e → now > e.resetTime →
      RateLimiter.check st id now =
        (⟨true, (st.maxRequests : Int) - 1, now + st.windowMs⟩,
         { st with store := listSet st.store id ⟨1, now + st.windowMs⟩ })) ∧
    -- (3) within the window: increment, reject iff count exceeds the maximum
    (∀ e, st.store.lookup id = some e → ¬ now > e.resetTime →
      (RateLimiter.check st id now).2.store.lookup id =
          some ⟨e.count + 1, e.resetTime⟩ ∧
      ((RateLimiter.check st id now).1.allowed = false ↔
          e.count + 1 > st.maxRequests) ∧
      (RateLimiter.check st id now).1.resetTime = e.resetTime) ∧
    -- (4) in one window, call number i+1 is allowed iff i+1 ≤ maxRequests
    (∀ t₀ ts, st.store.lookup id = none → (∀ t ∈ ts, t ≤ t₀ + st.windowMs) →
      (RateLimiter.checkSeq st id (t₀ :: ts)).map RateLimitResult.allowed =
        (List.range (ts.length + 1)).map
          (fun i => decide (i + 1 ≤ st.maxRequests))) := by
  refine ⟨?_, ?_, ?_, ?_⟩
  · intro h
    simp [RateLimiter.check, h]
  · intro e h hlt
    simp [RateLimiter.check, h, hlt]
  · intro e h hge
    by_cases hc : e.count + 1 > st.maxRequests
    · simp [RateLimiter.check, h, hge, hc, lookup_listSet_self]
    · simp [RateLimiter.check, h, hge, hc, lookup_listSet_self, not_lt.mp hc]
  · intro t₀ ts h hts
    simp only [RateLimiter.checkSeq, RateLimiter.check, h, List.map_cons,
      List.range_succ_eq_map, List.map_map]
    refine List.cons_eq_cons.mpr ⟨?_, ?_⟩
    · simpa using hmax
    · have := checkSeq_in_window { st with
          store := listSet st.store id ⟨1, t₀ + st.windowMs⟩ } id 1
          (t₀ + st.windowMs) (lookup_listSet_self _ _ _) ts hts
      simp only [this]
      apply List.map_congr_left
      intro i _
      simp only [Function.comp]
      rw [decide_eq_decide]
      omega

theorem rateLimiter_check_fixed_window_witness :
    (RateLimiter.checkSeq ⟨[], 100, 2⟩ "a" [0, 10, 20]).map
        RateLimitResult.allowed = [true, true, false] := by
  have h := rateLimiter_check_fixed_window ⟨[], 100, 2⟩ "a" 0 (by decide)
  have h4 := h.2.2.2 0 [10, 20] (by rfl) (by decide)
  rw [h4]
  decide

/-! ### Claim C7: violation accumulation and dynamic blocks -/

/-- **C7.** `recordViolation` increments the identifier's violation count, and
when the incremented count reaches `maxViolationsBeforeBlock` the identifier
becomes dynamically blocked until `now + blockDuration` with its violation
count reset to 0; while `now < blockedUntil` the identifier is rejected by
`isAllowed`, and once the block has expired `isAllowed` allows it again and
lazily clears the expired block.  (Dynamic blocking must be enabled, its
default; the "allowed again" part assumes the identifier is not statically
white/blacklisted, the context of the claim.) -/
theorem ipFilter_violations_and_blocking
    (st : IPFilterState) (ip : String) (now : Nat)
    (hdyn : st.config.enableDynamicBlocking = true) :
    -- (a) below threshold: count incremented, no block created
    (∀ c bu, (st.violations.lookup ip).getD ⟨ip, 0, none⟩ = ⟨ip, c, bu⟩ →
      c + 1 < st.config.maxViolationsBeforeBlock →
      (IPFilter.recordViolation st ip now).violations.lookup ip =
          some ⟨ip, c + 1, bu⟩ ∧
      (IPFilter.recordViolation st ip now).dynamicBlocks = st.dynamicBlocks) ∧
    -- (b) reaching the threshold: timed block and counter reset to 0
    (∀ c bu, (st.violations.lookup ip).getD ⟨ip, 0, none⟩ = ⟨ip, c, bu⟩ →
      c + 1 ≥ st.config.maxViolationsBeforeBlock →
      (IPFilter.recordViolation st ip now).dynamicBlocks.lookup ip =
          some (now + st.config.blockDurationMs) ∧
      (IPFilter.recordViolation st ip now).violations.lookup ip =
          some ⟨ip, 0, some (now + st.config.blockDurationMs)⟩) ∧
    -- (c) while now < blockedUntil: rejected
    (∀ b, st.dynamicBlocks.lookup ip = some b → now < b →
      (IPFilter.isAllowed st ip now).1.allowed = false) ∧
    -- (d) after the block expires: allowed again, expired block lazily cleared
    (∀ b, st.dynamicBlocks.lookup ip = some b → b ≤ now →
      st.config.whitelist = [] → ip ∉ st.config.blacklist →
      (st.dynamicBlocks.map Prod.fst).Nodup →
      (IPFilter.isAllowed st ip now).1.allowed = true ∧
      (IPFilter.isAllowed st ip now).2.dynamicBlocks.lookup ip = none) := by
  refine ⟨?_, ?_, ?_, ?_⟩
  · intro c bu hv hlt
    have hnb : ¬ c + 1 ≥ st.config.maxViolationsBeforeBlock := not_le.mpr hlt
    constructor
    · simp [IPFilter.recordViolation, hdyn, hv, hnb, lookup_listSet_self]
    · simp [IPFilter.recordViolation, hdyn, hv, hnb]
  · intro c bu hv hge
    constructor
    · simp [IPFilter.recordViolation, hdyn, hv, hge, lookup_listSet_self]
    · simp [IPFilter.recordViolation, hdyn, hv, hge, lookup_listSet_self]
  · intro b hb hnow
    simp only [IPFilter.isAllowed]
    split_ifs with h1 h2
    · rfl
    · rfl
    · simp [hb, hnow]
  · intro b hb hexp hwl hbl hnd
    have hnb : ¬ b > now := not_lt.mpr hexp
    constructor
    · simp only [IPFilter.isAllowed]
      split_ifs with h1 h2
      · rw [hwl] at h1; simp at h1
      · exact absurd (by simpa using h2) hbl
      · simp [hb, hnb]
    · simp only [IPFilter.isAllowed]
      split_ifs with h1 h2
      · rw [hwl] at h1; simp at h1
      · exact absurd (by simpa using h2) hbl
      · simp [hb, hnb, lookup_listDel_self _ _ hnd]

theorem ipFilter_violations_and_blocking_witness :
    ((IPFilter.recordViolation
        ⟨⟨[], [], true, 2, 50⟩, [("a", ⟨"a", 1, none⟩)], []⟩ "a" 7)
      |>.dynamicBlocks.lookup "a") = some 57 := by
  have h := ipFilter_violations_and_blocking
    ⟨⟨[], [], true, 2, 50⟩, [("a", ⟨"a", 1, none⟩)], []⟩ "a" 7 (by decide)
  exact (h.2.1 1 none (by decide) (by decide)).1

/-! ## CSRF/Origin Guard (`src/lib/security/csrf.ts`)

The HMAC-SHA256 keyed hash under the server secret
(`createHmac('sha256', CSRF_SECRET)...digest('hex')`) is an external
cryptographic primitive; it is an abstract parameter
`hm : List Char → List Char` of the definitions.  Strings are handled as
character lists here so that `split('.')` can be given its exact JavaScript
semantics. -/

/-- JS `s.split('.')` (with a one-character separator) on a char list. -/
def splitOnDot : List Char → List (List Char)
  | [] => [[]]
  | c :: cs =>
      if c = '.' then [] :: splitOnDot cs
      else
        match splitOnDot cs with
        | [] => [[c]]
        | p :: ps => (c :: p) :: ps

/-- Inverse of `splitOnDot`: interleave the parts with `'.'`. -/
def joinDot : List (List Char) → List Char
  | [] => []
  | [p] => p
  | p :: ps => p ++ '.' :: joinDot ps

theorem splitOnDot_ne_nil (s : List Char) : splitOnDot s ≠ [] := by
  cases s with
  | nil => simp [splitOnDot]
  | cons c cs =>
      simp only [splitOnDot]
      by_cases h : c = '.'
      · simp [h]
      · simp only [if_neg h]
        cases splitOnDot cs <;> simp

theorem joinDot_splitOnDot (s : List Char) :
    joinDot (splitOnDot s) = s := by
  induction s with
  | nil => simp [splitOnDot, joinDot]
  | cons c cs ih =>
      simp only [splitOnDot]
      by_cases h : c = '.'
      · subst h
        rw [if_pos rfl]
        cases hs : splitOnDot cs with
        | nil => exact absurd hs (splitOnDot_ne_nil cs)
        | cons p ps =>
            rw [hs] at ih
            simp [joinDot, ih]
      · rw [if_neg h]
        cases hs : splitOnDot cs with
        | nil => exact absurd hs (splitOnDot_ne_nil cs)
        | cons p ps =>
            rw [hs] at ih
            cases ps with
            | nil => simp [joinDot] at ih ⊢; exact ih
            | cons q qs => simp [joinDot] at ih ⊢; simp [ih]

theorem splitOnDot_parts_dotFree (s : List Char) :
    ∀ p ∈ splitOnDot s, '.' ∉ p := by
  induction s with
  | nil => simp [splitOnDot]
  | cons c cs ih =>
      simp only [splitOnDot]
      by_cases h : c = '.'
      · simp only [if_pos h]
        intro p hp
        rcases List.mem_cons.mp hp with h' | h'
        · simp [h']
        · exact ih p h'
      · simp only [if_neg h]
        cases hs : splitOnDot cs with
        | nil => exact absurd hs (splitOnDot_ne_nil cs)
        | cons q qs =>
            rw [hs] at ih
            intro p hp
            rcases List.mem_cons.mp hp with h' | h'
            · subst h'
              intro hmem
              rcases List.mem_cons.mp hmem with h'' | h''
              · exact h h''.symm
              · exact ih q (List.mem_cons_self q qs) h''
            · exact ih p (List.mem_cons_of_mem q h')

theorem splitOnDot_append_dotFree (t s : List Char) (ht : '.' ∉ t) :
    splitOnDot (t ++ '.' :: s) = t :: splitOnDot s := by
  induction t with
  | nil => simp [splitOnDot]
  | cons c cs ih =>
      have hc : c ≠ '.' := fun h => ht (h ▸ List.mem_cons_self c cs)
      have hcs : '.' ∉ cs := fun h => ht (List.mem_cons_of_mem c h)
      simp only [List.cons_append, splitOnDot, if_neg hc, List.append_eq,
        ih hcs]

theorem splitOnDot_dotFree (t : List Char) (ht : '.' ∉ t) :
    splitOnDot t = [t] := by
  induction t with
  | nil => simp [splitOnDot]
  | cons c cs ih =>
      have hc : c ≠ '.' := fun h => ht (h ▸ List.mem_cons_self c cs)
      have hcs : '.' ∉ cs := fun h => ht (List.mem_cons_of_mem c h)
      simp [splitOnDot, if_neg hc, ih hcs]

/-- `createSignedToken` (`csrf.ts:22-26`): returns `token.signature` where the
signature is the keyed hash of the token under the server secret. -/
def createSignedToken (hm : List Char → List Char) (token : List Char) :
    List Char :=
  token ++ '.' :: hm token

/-- `verifySignedToken` (`csrf.ts:31-47`): split on `'.'`, require exactly two
parts, recompute the signature over the received value and require exact
match. -/
def verifySignedToken (hm : List Char → List Char) (signedToken : List Char) :
    Option (List Char) :=
  match splitOnDot signedToken with
  | [token, signature] =>
      if signature = hm token then some token else none
  | _ => none

/-- `validateCsrfToken` (`csrf.ts:77-92`), with the header/cookie token
retrieval (`getCsrfTokenFromRequest`) collapsed into the `token` argument;
an absent or empty token is falsy. -/
def validateCsrfToken (hm : List Char → List Char) (method : String)
    (token : Option String) : Bool :=
  if ["GET", "HEAD", "OPTIONS"].contains (method.map Char.toUpper) then true
  else if (token.getD "") = "" then false
  else (verifySignedToken hm (token.getD "").toList).isSome

theorem verifySignedToken_eq_some (hm : List Char → List Char)
    (s t : List Char) :
    verifySignedToken hm s = some t ↔
      ('.' ∉ t ∧ '.' ∉ hm t ∧ s = createSignedToken hm t) := by
  constructor
  · intro h
    simp only [verifySignedToken] at h
    cases hs : splitOnDot s with
    | nil => exact absurd hs (splitOnDot_ne_nil s)
    | cons p ps =>
        rw [hs] at h
        cases ps with
        | nil => simp at h
        | cons q qs =>
            cases qs with
            | nil =>
                by_cases hq : q = hm p
                · simp only [if_pos hq] at h
                  have hp : p = t := by simpa using h
                  subst hp
                  have hjoin := joinDot_splitOnDot s
                  rw [hs] at hjoin
                  have hdf := splitOnDot_parts_dotFree s
                  rw [hs] at hdf
                  refine ⟨hdf p (by simp), ?_, ?_⟩
                  · rw [← hq]; exact hdf q (by simp)
                  · rw [← hjoin]
                    simp [joinDot, createSignedToken, hq]
                · simp [if_neg hq] at h
            | cons r rs => simp at h
  · rintro ⟨ht, hhm, rfl⟩
    simp only [verifySignedToken, createSignedToken,
      splitOnDot_append_dotFree _ _ ht, splitOnDot_dotFree _ hhm]
    simp

/-- **C8.** A signed CSRF token validates if and only if it is exactly
`value.signature` with `signature` the keyed hash (HMAC-SHA256 under the
current server secret, the abstract `hm`) of `value`: (i) `verifySignedToken`
returns `t` iff the input is exactly `createSignedToken t`; (ii) hence
`verifySignedToken (createSignedToken t) = t` for every dot-free `t` (tokens
from `generateCsrfToken` are hex strings, so dot-free); (iii) mutating the
signature part to anything other than the keyed hash of the value makes
validation fail, and (iv) mutating the value part makes validation fail
exactly when the keyed hash of the mutated value differs; (v) `validateCsrfToken`
skips GET/HEAD/OPTIONS and otherwise requires a present, verifiable token. -/
theorem csrf_signed_token_validation
    (hm : List Char → List Char) (t sig : List Char)
    (hhm : '.' ∉ hm t) :
    (∀ s, verifySignedToken hm s = some t ↔
      ('.' ∉ t ∧ s = createSignedToken hm t)) ∧
    ('.' ∉ t → verifySignedToken hm (createSignedToken hm t) = some t) ∧
    ('.' ∉ t → '.' ∉ sig → sig ≠ hm t →
      verifySignedToken hm (t ++ '.' :: sig) = none) ∧
    (∀ t', '.' ∉ t' →
      (verifySignedToken hm (t' ++ '.' :: hm t) = none ↔ hm t' ≠ hm t)) ∧
    (∀ method token, validateCsrfToken hm method token = true ↔
      (["GET", "HEAD", "OPTIONS"].contains (method.map Char.toUpper) ∨
        ((token.getD "") ≠ "" ∧
          (verifySignedToken hm (token.getD "").toList).isSome))) := by
  refine ⟨?_, ?_, ?_, ?_, ?_⟩
  · intro s
    rw [verifySignedToken_eq_some]
    constructor
    · rintro ⟨h1, _, h3⟩; exact ⟨h1, h3⟩
    · rintro ⟨h1, h3⟩; exact ⟨h1, hhm, h3⟩
  · intro ht
    exact (verifySignedToken_eq_some hm _ t).mpr ⟨ht, hhm, rfl⟩
  · intro ht hsig hne
    simp only [verifySignedToken, splitOnDot_append_dotFree _ _ ht,
      splitOnDot_dotFree _ hsig]
    simp [hne]
  · intro t' ht'
    simp only [verifySignedToken, splitOnDot_append_dotFree _ _ ht',
      splitOnDot_dotFree _ hhm]
    by_cases h : hm t = hm t'
    · rw [if_pos h]
      exact iff_of_false (by simp) (by simp [h.symm])
    · rw [if_neg h]
      exact iff_of_true rfl (Ne.symm h)
  · intro method token
    simp only [validateCsrfToken]
    by_cases h1 : ["GET", "HEAD", "OPTIONS"].contains (method.map Char.toUpper)
    · simp [h1]
    · by_cases h2 : (token.getD "") = ""
      · simp [h1, h2]
      · simp [h1, h2]

theorem csrf_signed_token_validation_witness :
    verifySignedToken (fun l => if l = ['a'] then ['x'] else ['y'])
        (createSignedToken (fun l => if l = ['a'] then ['x'] else ['y'])
          ['a']) = some ['a'] ∧
    verifySignedToken (fun l => if l = ['a'] then ['x'] else ['y'])
        (['a'] ++ '.' :: ['z']) = none := by
  have h := csrf_signed_token_validation
    (fun l => if l = ['a'] then ['x'] else ['y']) ['a'] ['z'] (by decide)
  exact ⟨h.2.1 (by decide), h.2.2.1 (by decide) (by decide) (by decide)⟩

/-! ### Origin validation (`csrf.ts:97-121`) and the local-network exception
that exists only in the middleware's CORS-header logic
(`src/middleware.ts:56-88`).

The platform `new URL(...)` parser is abstracted as
`urlOrigin : String → Option String`, returning the `origin` of the parsed
URL, or `none` when the constructor throws. -/

/-- `validateOrigin` (`csrf.ts:97-121`).  An absent or empty header is falsy
(`if (!origin)`). -/
def validateOrigin (urlOrigin : String → Option String)
    (originHeader refererHeader : Option String)
    (allowedOrigins : List String) : Bool :=
  let origin := originHeader.getD ""
  if origin = "" then
    let referer := refererHeader.getD ""
    if referer = "" then false
    else
      match urlOrigin referer with
      | none => false
      | some refOrigin =>
          allowedOrigins.any fun allowed =>
            match urlOrigin allowed with
            | none => false
            | some allowedOrigin => refOrigin == allowedOrigin
  else
    allowedOrigins.contains origin

/-- Digit run of length 1–3: the regex `\d{1,3}`. -/
def isDigits1to3 (p : List Char) : Bool :=
  decide (1 ≤ p.length) && decide (p.length ≤ 3) && p.all Char.isDigit

/-- The local-network hostname test from `middleware.ts:69-72`:
`localhost`, `127.0.0.1`, `::1`, or the RFC 1918 ranges
`192.168.x.x`, `10.x.x.x`, `172.16-31.x.x`. -/
def isLocalNetworkHostname (hostname : String) : Bool :=
  hostname == "localhost" || hostname == "127.0.0.1" || hostname == "::1" ||
  (match splitOnDot hostname.toList with
   | [a, b, c, d] =>
       (a = ['1', '9', '2'] && b = ['1', '6', '8'] &&
         isDigits1to3 c && isDigits1to3 d) ||
       (a = ['1', '0'] && isDigits1to3 b && isDigits1to3 c &&
         isDigits1to3 d) ||
       (a = ['1', '7', '2'] &&
         (["16", "17", "18", "19", "20", "21", "22", "23", "24", "25",
           "26", "27", "28", "29", "30", "31"].map
             String.toList).contains b &&
         isDigits1to3 c && isDigits1to3 d)
   | _ => false)

/-- **C4 counterexample.** `http://127.0.0.1:3000` has loopback host
`127.0.0.1` (accepted by the middleware's local-network test), yet
`validateOrigin` rejects it under an allow-list that does not contain it:
`validateOrigin` has no loopback/private-network exception. -/
theorem validateOrigin_no_loopback_exception :
    isLocalNetworkHostname "127.0.0.1" = true ∧
    validateOrigin (fun _ => none) (some "http://127.0.0.1:3000") none []
      = false := by
  constructor
  · rfl
  · rfl

/-- **C4 (amended).** `validateOrigin` accepts a request iff either the Origin
header is present (and non-empty) and is literally contained in the allow-list,
or the Origin header is absent (or empty) and the Referer header is present,
parses as a URL, and its origin equals the origin of some parseable allow-list
entry.  No loopback or RFC 1918 private-network exception exists in
`validateOrigin`; that leniency appears only in the middleware's CORS
response-header logic, which never rejects a request. -/
theorem validateOrigin_characterization
    (urlOrigin : String → Option String)
    (originHeader refererHeader : Option String)
    (allowedOrigins : List String) :
    validateOrigin urlOrigin originHeader refererHeader allowedOrigins = true ↔
      ((originHeader.getD "" ≠ "" ∧
          allowedOrigins.contains (originHeader.getD "")) ∨
       (originHeader.getD "" = "" ∧ refererHeader.getD "" ≠ "" ∧
          ∃ ro, urlOrigin (refererHeader.getD "") = some ro ∧
            ∃ a ∈ allowedOrigins, urlOrigin a = some ro)) := by
  simp only [validateOrigin]
  by_cases ho : originHeader.getD "" = ""
  · rw [if_pos ho]
    by_cases hr : refererHeader.getD "" = ""
    · simp [hr, ho]
    · rw [if_neg hr]
      cases hu : urlOrigin (refererHeader.getD "") with
      | none => simp [hr, ho, hu]
      | some ro =>
          rw [List.any_eq_true]
          constructor
          · rintro ⟨a, ha, hmatch⟩
            refine Or.inr ⟨ho, hr, ro, rfl, a, ha, ?_⟩
            cases hua : urlOrigin a with
            | none => rw [hua] at hmatch; exact absurd hmatch (by simp)
            | some ao =>
                rw [hua] at hmatch
                simp only [beq_iff_eq] at hmatch
                rw [hmatch]
          · rintro (⟨hne, _⟩ | ⟨_, _, ro', hro', a, ha, hua⟩)
            · exact absurd ho hne
            · have hro : ro = ro' := Option.some_injective _ hro'
              refine ⟨a, ha, ?_⟩
              rw [hua, hro]
              simp
  · rw [if_neg ho]
    simp [ho]

/-! ## Token/Credential Issuer (`src/lib/auth/api-tokens.ts`)

`hashToken` is `createHmac('sha256', this.secret).update(token).digest('hex')`;
the HMAC primitive is the abstract parameter `hmacHex secret token`.  The
`randomBytes(..).toString('hex')` values are the `idRand`/`tokenRand`
arguments. -/

/-- `APIToken` (`api-tokens.ts:30-39`). -/
structure APIToken where
  id : String
  token : String
  hashedToken : String
  name : String
  scopes : List String
  createdAt : Nat
  expiresAt : Option Nat
  lastUsedAt : Option Nat
deriving Repr, DecidableEq

/-- The `APITokenManager` instance state. -/
structure APITokenManagerState where
  tokens : List (String × APIToken)
  secret : String
deriving Repr, DecidableEq

/-- Return shape of `generateToken`. -/
structure GeneratedToken where
  id : String
  token : String
  createdAt : Nat
  expiresAt : Option Nat
deriving Repr, DecidableEq

/-- `APITokenManager.generateToken` (`api-tokens.ts:52-85`).  Note
`expiresInDays ? ... : null` is JS-falsy for `0`. -/
def generateToken (hmacHex : String → String → String)
    (st : APITokenManagerState) (name : String) (scopes : List String)
    (expiresInDays : Option Nat) (idRand tokenRand : String) (now : Nat) :
    GeneratedToken × APITokenManagerState :=
  let id := idRand
  let token := "llm_" ++ tokenRand
  let hashedToken := hmacHex st.secret token
  let expiresAt := match expiresInDays with
    | some d => if d ≠ 0 then some (now + d * 24 * 60 * 60 * 1000) else none
    | none => none
  let apiToken : APIToken :=
    ⟨id, token, hashedToken, name, scopes, now, expiresAt, none⟩
  (⟨id, token, now, expiresAt⟩,
   { st with tokens := listSet st.tokens id apiToken })

/-- The record shape returned by `listTokens`:
`Omit<APIToken, 'token' | 'hashedToken'>`. -/
structure PublicAPIToken where
  id : String
  name : String
  scopes : List String
  createdAt : Nat
  expiresAt : Option Nat
  lastUsedAt : Option Nat
deriving Repr, DecidableEq

/-- The destructuring `({ token, hashedToken, ...rest }) => rest`. -/
def publicView (t : APIToken) : PublicAPIToken :=
  ⟨t.id, t.name, t.scopes, t.createdAt, t.expiresAt, t.lastUsedAt⟩

/-- `APITokenManager.listTokens` (`api-tokens.ts:152-154`). -/
def listTokens (st : APITokenManagerState) : List PublicAPIToken :=
  st.tokens.map fun p => publicView p.2

/-- **C5 counterexample.** After `generateToken`, the stored record retains the
*plaintext* token (the `token` field of the stored `APIToken`), not only its
keyed hash — contradicting "the issuer's stored state retains only a keyed
hash of the token and never the plaintext token value". -/
theorem generateToken_retains_plaintext :
    (((generateToken (fun k m => k ++ ":" ++ m) ⟨[], "sec"⟩ "n" ["read"]
        none "id1" "rand" 1000).2.tokens.lookup "id1").map APIToken.token)
      = some "llm_rand" ∧
    ((generateToken (fun k m => k ++ ":" ++ m) ⟨[], "sec"⟩ "n" ["read"]
        none "id1" "rand" 1000).1.token) = "llm_rand" := by
  exact ⟨rfl, rfl⟩

/-- **C5 (amended).** After `generateToken`, the stored record retains *both*
the plaintext token and its keyed hash; the plaintext is returned at issuance;
and `listTokens` exposes no secret material: its output is invariant under
arbitrary rewriting of every stored record's `token` and `hashedToken`
fields (it projects only the non-secret fields). -/
theorem tokenIssuer_storage_and_listing
    (hmacHex : String → String → String) (st : APITokenManagerState)
    (name : String) (scopes : List String) (expiresInDays : Option Nat)
    (idRand tokenRand : String) (now : Nat) :
    (∃ r, (generateToken hmacHex st name scopes expiresInDays idRand
        tokenRand now).2.tokens.lookup idRand = some r ∧
      r.token = "llm_" ++ tokenRand ∧
      r.hashedToken = hmacHex st.secret ("llm_" ++ tokenRand)) ∧
    ((generateToken hmacHex st name scopes expiresInDays idRand
        tokenRand now).1.token = "llm_" ++ tokenRand) ∧
    (∀ (st' : APITokenManagerState) (f g : APIToken → String),
      listTokens { st' with tokens := (st'.tokens.map
          fun p => (p.1, { p.2 with token := f p.2, hashedToken := g p.2 })) }
        = listTokens st') := by
  refine ⟨?_, rfl, ?_⟩
  · exact ⟨_, lookup_listSet_self _ _ _, rfl, rfl⟩
  · intro st' f g
    simp only [listTokens, List.map_map]
    apply List.map_congr_left
    intro p _
    rfl

/-! ## Input validation (`src/lib/security/validator.ts`)

Thrown `Error`/`ValidationError` objects are modelled by `JsError`; the
`instanceof ValidationError` test is the `isValidationError` flag. -/

/-- A thrown JavaScript error, as far as the gateway inspects it. -/
structure JsError where
  message : String
  technicalDetails : Option String
  isValidationError : Bool
deriving Repr, DecidableEq

/-- `new ValidationError(msg)`. -/
def validationError (msg : String) : JsError := ⟨msg, none, true⟩

/-- `sanitizeError` (`validator.ts:98-117`) on an `Error` object.  (The
non-`Error` fallback `'An unknown error occurred.'` is unreachable in this
embedding, where every thrown value is a `JsError`.) -/
def sanitizeError (e : JsError) : String :=
  if e.isValidationError then e.message
  else
    match e.technicalDetails with
    | some td => if td ≠ e.message then e.message ++ " ||| " ++ td
                 else e.message
    | none => e.message

/-- JavaScript whitespace for `String.prototype.trim` (the ASCII part plus
NBSP and the BOM; other Unicode space separators do not occur in the claims'
inputs). -/
def isJsWhitespace (c : Char) : Bool :=
  c = ' ' || c = '\t' || c = '\n' || c = '\r' || c.toNat = 11 ||
  c.toNat = 12 || c.toNat = 160 || c.toNat = 0xFEFF

/-- JS `s.trim()`. -/
def jsTrim (s : String) : String :=
  ⟨((s.toList.dropWhile isJsWhitespace).reverse.dropWhile
      isJsWhitespace).reverse⟩

/-- The character class stripped by `validatePrompt`:
`/\0/g` followed by `/[\x00-\x08\x0B-\x0C\x0E-\x1F\x7F]/g` — all C0 control
characters except tab (9), newline (10) and carriage return (13), plus
DEL (127). -/
def isStrippedControl (c : Char) : Bool :=
  c.toNat ≤ 8 || c.toNat = 11 || c.toNat = 12 ||
  (14 ≤ c.toNat && c.toNat ≤ 31) || c.toNat = 127

/-- `validatePrompt` (`validator.ts:31-52`), on an input already known to be a
string (the `typeof` guard is the host-language type here). -/
def validatePrompt (maxLen : Nat) (prompt : String) : Except JsError String :=
  if (jsTrim prompt).length = 0 then
    .error (validationError "Prompt cannot be empty")
  else if prompt.length > maxLen then
    .error (validationError ("Prompt exceeds maximum length of " ++
      toString maxLen ++ " characters"))
  else
    .ok (jsTrim ⟨prompt.toList.filter (fun c => ! isStrippedControl c)⟩)

/-- The hardcoded `validProviderIds` list (`validator.ts:66`). -/
def validProviderIds : List String :=
  ["openai", "anthropic", "google", "cohere", "grok", "ollama"]

/-- JS `array.join(', ')`. -/
def joinComma : List String → String
  | [] => ""
  | [x] => x
  | x :: xs => x ++ ", " ++ joinComma xs

/-- `[...new Set(l)]`: deduplication keeping first occurrences in order. -/
def jsSetDedup (l : List String) : List String :=
  go [] l
where
  go (seen : List String) : List String → List String
    | [] => []
    | x :: xs => if x ∈ seen then go seen xs else x :: go (seen ++ [x]) xs

/-- `validateProviderIds` (`validator.ts:57-77`), on an input already known to
be an array of strings. -/
def validateProviderIds (providerIds : List String) :
    Except JsError (List String) :=
  if providerIds.length = 0 then
    .error (validationError "At least one provider must be selected")
  else
    let invalidIds := providerIds.filter
      (fun id => ! validProviderIds.contains id)
    if invalidIds.length > 0 then
      .error (validationError ("Invalid provider IDs: " ++
        joinComma invalidIds))
    else
      .ok (jsSetDedup providerIds)

theorem mem_of_mem_dropWhile {α : Type} (p : α → Bool) (l : List α) (a : α)
    (h : a ∈ l.dropWhile p) : a ∈ l := by
  induction l with
  | nil => simp at h
  | cons x xs ih =>
      by_cases hx : p x
      · rw [List.dropWhile_cons_of_pos hx] at h
        exact List.mem_cons_of_mem x (ih h)
      · rwa [List.dropWhile_cons_of_neg hx] at h

theorem length_dropWhile_le' {α : Type} (p : α → Bool) (l : List α) :
    (l.dropWhile p).length ≤ l.length := by
  induction l with
  | nil => simp
  | cons x xs ih =>
      by_cases hx : p x
      · rw [List.dropWhile_cons_of_pos hx]
        exact ih.trans (Nat.le_succ _)
      · rw [List.dropWhile_cons_of_neg hx]

theorem jsTrim_toList_sub (s : String) (c : Char)
    (h : c ∈ (jsTrim s).toList) : c ∈ s.toList := by
  simp only [jsTrim] at h
  have h1 : c ∈ (s.toList.dropWhile isJsWhitespace).reverse.dropWhile
      isJsWhitespace := by simp at h; exact h
  have h2 := mem_of_mem_dropWhile _ _ _ h1
  rw [List.mem_reverse] at h2
  exact mem_of_mem_dropWhile _ _ _ h2

theorem jsTrim_length_le (s : String) : (jsTrim s).length ≤ s.length := by
  show (((s.toList.dropWhile isJsWhitespace).reverse.dropWhile
      isJsWhitespace).reverse).length ≤ s.toList.length
  rw [List.length_reverse]
  calc ((s.toList.dropWhile isJsWhitespace).reverse.dropWhile
          isJsWhitespace).length
      ≤ (s.toList.dropWhile isJsWhitespace).reverse.length :=
        length_dropWhile_le' _ _
    _ = (s.toList.dropWhile isJsWhitespace).length := List.length_reverse _
    _ ≤ s.toList.length := length_dropWhile_le' _ _

theorem jsSetDedup_go_mem (l : List String) (x : String) :
    ∀ seen, x ∈ jsSetDedup.go seen l ↔ (x ∈ l ∧ x ∉ seen) := by
  induction l with
  | nil => intro seen; simp [jsSetDedup.go]
  | cons y ys ih =>
      intro seen
      by_cases hy : y ∈ seen
      · rw [jsSetDedup.go, if_pos hy, ih]
        constructor
        · rintro ⟨h1, h2⟩
          exact ⟨List.mem_cons_of_mem _ h1, h2⟩
        · rintro ⟨h1, h2⟩
          rcases List.mem_cons.mp h1 with rfl | h1
          · exact absurd hy h2
          · exact ⟨h1, h2⟩
      · rw [jsSetDedup.go, if_neg hy]
        constructor
        · intro h
          rcases List.mem_cons.mp h with rfl | h
          · exact ⟨List.mem_cons_self _ _, hy⟩
          · obtain ⟨h1, h2⟩ := (ih _).mp h
            have h2' : x ∉ seen := fun hm =>
              h2 (List.mem_append.mpr (Or.inl hm))
            exact ⟨List.mem_cons_of_mem _ h1, h2'⟩
        · rintro ⟨h1, h2⟩
          rcases List.mem_cons.mp h1 with rfl | h1
          · exact List.mem_cons_self _ _
          · by_cases hxy : x = y
            · subst hxy; exact List.mem_cons_self _ _
            · refine List.mem_cons_of_mem _ ((ih _).mpr ⟨h1, ?_⟩)
              intro hm
              rcases List.mem_append.mp hm with hm | hm
              · exact h2 hm
              · exact hxy (by simpa using hm)

theorem jsSetDedup_go_nodup (l : List String) :
    ∀ seen, (jsSetDedup.go seen l).Nodup := by
  induction l with
  | nil => intro seen; simp [jsSetDedup.go]
  | cons y ys ih =>
      intro seen
      by_cases hy : y ∈ seen
      · rw [jsSetDedup.go, if_pos hy]
        exact ih _
      · rw [jsSetDedup.go, if_neg hy]
        refine List.nodup_cons.mpr ⟨?_, ih _⟩
        intro hmem
        have := ((jsSetDedup_go_mem ys y _).mp hmem).2
        exact this (List.mem_append.mpr (Or.inr (by simp)))

theorem jsSetDedup_mem (l : List String) (x : String) :
    x ∈ jsSetDedup l ↔ x ∈ l := by
  rw [jsSetDedup, jsSetDedup_go_mem]
  simp

theorem jsSetDedup_nodup (l : List String) : (jsSetDedup l).Nodup :=
  jsSetDedup_go_nodup l []

/-- **C10 counterexample.** `validatePrompt` accepts the prompt `"\x01"` and
passes onward the *empty* string (the non-emptiness check runs on the
whitespace-trimmed raw input, before control characters are stripped), and it
accepts `"a\rb"` and passes it onward with the carriage return `\r` — a
control character other than newline and tab — retained (the stripped class
`[\x00-\x08\x0B-\x0C\x0E-\x1F\x7F]` excludes `\x0D`). -/
theorem validatePrompt_counterexample :
    validatePrompt 10000 "\x01" = .ok "" ∧
    validatePrompt 10000 "a\rb" = .ok "a\rb" ∧
    isStrippedControl (Char.ofNat 13) = false := by
  refine ⟨rfl, rfl, by decide⟩

theorem validateProviderIds_empty (ids : List String)
    (h : ids.length = 0) :
    validateProviderIds ids =
      .error (validationError "At least one provider must be selected") := by
  simp only [validateProviderIds]
  rw [if_pos h]

theorem validateProviderIds_invalid (ids : List String)
    (h1 : ¬ ids.length = 0)
    (h2 : 0 < (ids.filter (fun id => ! validProviderIds.contains id)).length) :
    validateProviderIds ids =
      .error (validationError ("Invalid provider IDs: " ++
        joinComma (ids.filter (fun id => ! validProviderIds.contains id)))) := by
  simp only [validateProviderIds]
  rw [if_neg h1, if_pos h2]

theorem validateProviderIds_ok (ids : List String)
    (h1 : ¬ ids.length = 0)
    (h2 : ¬ 0 < (ids.filter
      (fun id => ! validProviderIds.contains id)).length) :
    validateProviderIds ids = .ok (jsSetDedup ids) := by
  simp only [validateProviderIds]
  rw [if_neg h1, if_neg h2]

/-- **C10 (amended).** `validatePrompt` accepts a prompt iff its
whitespace-trim is non-empty and its length is at most the configured maximum;
the accepted output is no longer than the maximum and is free of the *stripped*
control characters (all C0 controls except tab, newline and carriage return,
plus DEL) — carriage returns are retained, and the output may be empty when
the input consisted only of stripped characters.  `validateProviderIds`
accepts exactly the non-empty arrays of known backend ids and returns the
accepted list deduplicated (first occurrences, in request order).  Every
rejection is a `ValidationError` (reported by the route as a 400 with the
verbatim message). -/
theorem request_validation_characterization
    (maxLen : Nat) (prompt : String) (ids : List String) :
    (∀ out, validatePrompt maxLen prompt = .ok out →
      out.length ≤ maxLen ∧ ∀ c ∈ out.toList, isStrippedControl c = false) ∧
    ((∃ out, validatePrompt maxLen prompt = .ok out) ↔
      ((jsTrim prompt).length ≠ 0 ∧ prompt.length ≤ maxLen)) ∧
    (∀ e, validatePrompt maxLen prompt = .error e →
      e.isValidationError = true) ∧
    ((∃ out, validateProviderIds ids = .ok out) ↔
      (ids ≠ [] ∧ ∀ id ∈ ids, validProviderIds.contains id = true)) ∧
    (∀ out, validateProviderIds ids = .ok out →
      out = jsSetDedup ids ∧ out.Nodup ∧ (∀ id, id ∈ out ↔ id ∈ ids)) ∧
    (∀ e, validateProviderIds ids = .error e →
      e.isValidationError = true) := by
  refine ⟨?_, ?_, ?_, ?_, ?_, ?_⟩
  · intro out hout
    simp only [validatePrompt] at hout
    by_cases h1 : (jsTrim prompt).length = 0
    · simp [h1] at hout
    · by_cases h2 : prompt.length > maxLen
      · simp [h1, h2] at hout
      · simp only [h1, h2, if_neg, if_false] at hout
        have hout' : jsTrim ⟨prompt.toList.filter
            (fun c => ! isStrippedControl c)⟩ = out := by
          simpa using hout
        subst hout'
        constructor
        · calc (jsTrim _).length
              ≤ (String.mk (prompt.toList.filter
                  (fun c => ! isStrippedControl c))).length :=
                jsTrim_length_le _
            _ ≤ prompt.toList.length := List.length_filter_le _ _
            _ ≤ maxLen := not_lt.mp h2
        · intro c hc
          have := jsTrim_toList_sub _ c hc
          have hmem : c ∈ prompt.toList.filter
              (fun c => ! isStrippedControl c) := by simpa using this
          have := (List.mem_filter.mp hmem).2
          simpa using this
  · simp only [validatePrompt]
    by_cases h1 : (jsTrim prompt).length = 0
    · simp [h1]
    · by_cases h2 : prompt.length > maxLen
      · simp [h1, h2, not_le.mpr h2]
      · simp [h1, h2, not_lt.mp h2]
  · intro e he
    simp only [validatePrompt] at he
    by_cases h1 : (jsTrim prompt).length = 0
    · simp only [h1, if_pos, if_true] at he
      cases he
      rfl
    · by_cases h2 : prompt.length > maxLen
      · simp only [h1, h2, if_neg, if_false, if_pos, if_true] at he
        cases he
        rfl
      · simp [h1, h2] at he
  · by_cases h1 : ids.length = 0
    · rw [validateProviderIds_empty ids h1]
      constructor
      · rintro ⟨out, hout⟩; cases hout
      · rintro ⟨hne, _⟩
        exact absurd (List.length_eq_zero.mp h1) hne
    · have hne : ids ≠ [] := fun h => h1 (by simp [h])
      by_cases h2 : 0 < (ids.filter
          (fun id => ! validProviderIds.contains id)).length
      · rw [validateProviderIds_invalid ids h1 h2]
        constructor
        · rintro ⟨out, hout⟩; cases hout
        · rintro ⟨_, hall⟩
          have hnil : ids.filter (fun id => ! validProviderIds.contains id)
              = [] := by
            rw [List.filter_eq_nil_iff]
            intro a ha
            rw [hall a ha]
            decide
          rw [hnil] at h2
          simp at h2
      · rw [validateProviderIds_ok ids h1 h2]
        constructor
        · intro _
          refine ⟨hne, ?_⟩
          intro id hid
          by_contra hno
          have hfalse : validProviderIds.contains id = false := by
            cases hcase : validProviderIds.contains id
            · rfl
            · exact absurd hcase hno
          have hmem : id ∈ ids.filter
              (fun id => ! validProviderIds.contains id) := by
            rw [List.mem_filter]
            exact ⟨hid, by rw [hfalse]; rfl⟩
          refine h2 (List.length_pos.mpr fun hnil => ?_)
          rw [hnil] at hmem
          simp at hmem
        · intro _
          exact ⟨jsSetDedup ids, rfl⟩
  · intro out hout
    by_cases h1 : ids.length = 0
    · rw [validateProviderIds_empty ids h1] at hout
      cases hout
    · by_cases h2 : 0 < (ids.filter
          (fun id => ! validProviderIds.contains id)).length
      · rw [validateProviderIds_invalid ids h1 h2] at hout
        cases hout
      · rw [validateProviderIds_ok ids h1 h2] at hout
        cases hout
        exact ⟨rfl, jsSetDedup_nodup ids, fun id => jsSetDedup_mem ids id⟩
  · intro e he
    by_cases h1 : ids.length = 0
    · rw [validateProviderIds_empty ids h1] at he
      cases he
      rfl
    · by_cases h2 : 0 < (ids.filter
          (fun id => ! validProviderIds.contains id)).length
      · rw [validateProviderIds_invalid ids h1 h2] at he
        cases he
        rfl
      · rw [validateProviderIds_ok ids h1 h2] at he
        cases he

/-! ## Content Safety Filter (`src/lib/security/content-filter.ts`)

`sanitizeLlmResponse` (`content-filter.ts:110-139`) is a pipeline of global
regex replacements followed by entity escaping.  Each `/gi` replacement is
embedded as a left-to-right scanner over the character list: at each position
it attempts the (deterministic) pattern; on a match it skips the matched span
and resumes after it (JavaScript `replace` semantics for `/g`), otherwise it
emits the character and advances by one.  The initial
`detectMaliciousPatterns` call only logs (`console.warn`) and does not affect
the returned value, so it is not part of the value-level pipeline. -/

/-- The opposite-case variant of an ASCII letter (itself otherwise). -/
def otherCase (p : Char) : Char :=
  if 'a' ≤ p ∧ p ≤ 'z' then Char.ofNat (p.toNat - 32)
  else if 'A' ≤ p ∧ p ≤ 'Z' then Char.ofNat (p.toNat + 32)
  else p

/-- Case-insensitive match of subject char `c` against pattern char `p`
(the regex `/i` flag, ASCII case folding). -/
def ciEq (p c : Char) : Bool := c == p || c == otherCase p

/-- Case-insensitive literal prefix match of `pat` against `s`. -/
def startsWithCI : List Char → List Char → Bool
  | [], _ => true
  | _ :: _, [] => false
  | p :: ps, c :: cs => ciEq p c && startsWithCI ps cs

/-- Case-insensitive literal substring test. -/
def containsCI (pat : List Char) : List Char → Bool
  | [] => startsWithCI pat []
  | c :: cs => startsWithCI pat (c :: cs) || containsCI pat cs

/-- Length of the shortest prefix of `s` ending with a case-insensitive
occurrence of `pat` (i.e. one past the first occurrence), if any. -/
def findSkipCI (pat : List Char) : List Char → Option Nat
  | [] => if startsWithCI pat [] then some pat.length else none
  | c :: cs =>
      if startsWithCI pat (c :: cs) then some pat.length
      else (findSkipCI pat cs).map (· + 1)

/-- JS regex `\w`: `[A-Za-z0-9_]`. -/
def isWordChar (c : Char) : Bool :=
  ('A' ≤ c && c ≤ 'Z') || ('a' ≤ c && c ≤ 'z') ||
  ('0' ≤ c && c ≤ '9') || c = '_'

/-- `\b` after the opening tag: the next character (if any) is not a word
character. -/
def boundaryAfter : List Char → Bool
  | [] => true
  | d :: _ => ! isWordChar d

/-- One paired-tag replacement
`/<TAG\b[^<]*(?:(?!<\/TAG>)<[^<]*)*<\/TAG>/gi → ''`: remove every span from a
case-insensitive `<TAG` (followed by a word boundary) up to and including the
first subsequent case-insensitive `</TAG>`; an unclosed opening tag is left in
place. -/
def stripTagPair (tag : List Char) (s : List Char) : List Char :=
  go 0 s
where
  go : Nat → List Char → List Char
    | n + 1, _ :: cs => go n cs
    | _, [] => []
    | 0, c :: cs =>
        let openLen := tag.length + 1
        if startsWithCI ('<' :: tag) (c :: cs) &&
            boundaryAfter ((c :: cs).drop openLen) then
          match findSkipCI ('<' :: '/' :: (tag ++ ['>']))
              ((c :: cs).drop openLen) with
          | some k => go (openLen + k - 1) cs
          | none => c :: go 0 cs
        else c :: go 0 cs

/-- The quote characters of the event-handler regex (`["']`). -/
def isQuote (c : Char) : Bool := c = '"' || c = '\''

/-- Attempt the event-handler pattern `on\w+\s*=\s*["'][^"']*["']` at the head
of `s`; returns the length of the matched span.  (`\s` is modelled by the same
ASCII-plus-NBSP whitespace class as `trim`.) -/
def matchEventHandler (s : List Char) : Option Nat :=
  match s with
  | c1 :: c2 :: rest =>
      if ciEq 'o' c1 && ciEq 'n' c2 then
        if (rest.takeWhile isWordChar).length = 0 then none
        else
          match (rest.dropWhile isWordChar).dropWhile isJsWhitespace with
          | '=' :: r3 =>
              match r3.dropWhile isJsWhitespace with
              | q :: r5 =>
                  if isQuote q then
                    match r5.dropWhile (fun c => ! isQuote c) with
                    | q2 :: _ =>
                        if isQuote q2 then
                          some (2 + (rest.takeWhile isWordChar).length +
                            ((rest.dropWhile isWordChar).takeWhile
                              isJsWhitespace).length + 1 +
                            (r3.takeWhile isJsWhitespace).length + 1 +
                            (r5.takeWhile (fun c => ! isQuote c)).length + 1)
                        else none
                    | [] => none
                  else none
              | [] => none
          | _ => none
      else none
  | _ => none

/-- `/on\w+\s*=\s*["'][^"']*["']/gi → ''`. -/
def stripEventHandlers (s : List Char) : List Char :=
  go 0 s
where
  go : Nat → List Char → List Char
    | n + 1, _ :: cs => go n cs
    | _, [] => []
    | 0, c :: cs =>
        match matchEventHandler (c :: cs) with
        | some n => go (n - 1) cs
        | none => c :: go 0 cs

/-- A case-insensitive literal global replacement with `''`
(`/javascript:/gi`, `/data:text\/html/gi`). -/
def stripLitCI (pat : List Char) (s : List Char) : List Char :=
  go 0 s
where
  go : Nat → List Char → List Char
    | n + 1, _ :: cs => go n cs
    | _, [] => []
    | 0, c :: cs =>
        if startsWithCI pat (c :: cs) then go (pat.length - 1) cs
        else c :: go 0 cs

/-- One single-character global replacement (`.replace(/X/g, repl)`). -/
def replaceChar (target : Char) (repl : List Char) : List Char → List Char
  | [] => []
  | c :: cs => (if c = target then repl else [c]) ++ replaceChar target repl cs

/-- The escaping chain of `sanitizeLlmResponse` (`&`, then `<`, `>`, `"`,
`'`). -/
def escapeHtmlEntities (s : List Char) : List Char :=
  replaceChar '\'' "&#x27;".toList
    (replaceChar '"' "&quot;".toList
      (replaceChar '>' "&gt;".toList
        (replaceChar '<' "&lt;".toList
          (replaceChar '&' "&amp;".toList s))))

/-- `sanitizeLlmResponse` (`content-filter.ts:110-139`). -/
def sanitizeLlmResponse (response : String) : String :=
  let s1 := stripTagPair "script".toList response.toList
  let s2 := stripTagPair "style".toList s1
  let s3 := stripTagPair "iframe".toList s2
  let s4 := stripTagPair "object".toList s3
  let s5 := stripTagPair "embed".toList s4
  let s6 := stripEventHandlers s5
  let s7 := stripLitCI "javascript:".toList s6
  let s8 := stripLitCI "data:text/html".toList s7
  ⟨escapeHtmlEntities s8⟩

/-- **C3 counterexample.** Output sanitization is not idempotent: the entity
escape runs `&` → `&amp;` on every application, so
`sanitizeLlmResponse (sanitizeLlmResponse "&") = "&amp;amp;" ≠ "&amp;" =
sanitizeLlmResponse "&"`. -/
theorem sanitizeLlmResponse_not_idempotent :
    sanitizeLlmResponse "&" = "&amp;" ∧
    sanitizeLlmResponse (sanitizeLlmResponse "&") = "&amp;amp;" ∧
    sanitizeLlmResponse (sanitizeLlmResponse "&") ≠ sanitizeLlmResponse "&" := by
  refine ⟨rfl, rfl, by decide⟩

theorem ciEq_angle (c : Char) (h : c ≠ '<') : ciEq '<' c = false := by
  have h1 : otherCase '<' = '<' := by decide
  simp [ciEq, h1, h]

theorem stripTagPair_go_id (tag : List Char) :
    ∀ s, (∀ c ∈ s, c ≠ '<') → stripTagPair.go tag 0 s = s := by
  intro s
  induction s with
  | nil => intro _; rfl
  | cons c cs ih =>
      intro h
      have hc : c ≠ '<' := h c (List.mem_cons_self c cs)
      have hsw : startsWithCI ('<' :: tag) (c :: cs) = false := by
        simp [startsWithCI, ciEq_angle c hc]
      simp only [stripTagPair.go, hsw, Bool.false_and, Bool.false_eq_true,
        if_false]
      exact congrArg (c :: ·) (ih fun x hx => h x (List.mem_cons_of_mem c hx))

theorem stripTagPair_id (tag s : List Char) (h : ∀ c ∈ s, c ≠ '<') :
    stripTagPair tag s = s :=
  stripTagPair_go_id tag s h

theorem matchEventHandler_quote (s : List Char) (n : Nat)
    (h : matchEventHandler s = some n) : ∃ q ∈ s, isQuote q = true := by
  unfold matchEventHandler at h
  split at h
  next c1 c2 rest =>
    split at h
    next hon =>
      split at h
      next => exact absurd h (by simp)
      next hw =>
        split at h
        next r3 heq =>
          split at h
          next q r5 heq2 =>
            split at h
            next hq =>
              refine ⟨q, ?_, hq⟩
              have m1 : q ∈ r3.dropWhile isJsWhitespace := by
                rw [heq2]; exact List.mem_cons_self q r5
              have m2 : q ∈ r3 := mem_of_mem_dropWhile _ _ _ m1
              have m3 : q ∈ (rest.dropWhile isWordChar).dropWhile
                  isJsWhitespace := by
                rw [heq]; exact List.mem_cons_of_mem _ m2
              have m4 := mem_of_mem_dropWhile _ _ _
                (mem_of_mem_dropWhile _ _ _ m3)
              exact List.mem_cons_of_mem _ (List.mem_cons_of_mem _ m4)
            next => exact absurd h (by simp)
          next => exact absurd h (by simp)
        next => exact absurd h (by simp)
    next => exact absurd h (by simp)
  next => exact absurd h (by simp)

theorem matchEventHandler_none (s : List Char)
    (h : ∀ c ∈ s, isQuote c = false) : matchEventHandler s = none := by
  cases hm : matchEventHandler s with
  | none => rfl
  | some n =>
      obtain ⟨q, hq, hqt⟩ := matchEventHandler_quote s n hm
      rw [h q hq] at hqt
      cases hqt

theorem stripEventHandlers_go_id :
    ∀ s, (∀ c ∈ s, isQuote c = false) → stripEventHandlers.go 0 s = s := by
  intro s
  induction s with
  | nil => intro _; rfl
  | cons c cs ih =>
      intro h
      have hm := matchEventHandler_none (c :: cs) h
      simp only [stripEventHandlers.go, hm]
      exact congrArg (c :: ·) (ih fun x hx => h x (List.mem_cons_of_mem c hx))

theorem stripEventHandlers_id (s : List Char)
    (h : ∀ c ∈ s, isQuote c = false) : stripEventHandlers s = s :=
  stripEventHandlers_go_id s h

theorem stripLitCI_go_id (pat : List Char) :
    ∀ s, containsCI pat s = false → stripLitCI.go pat 0 s = s := by
  intro s
  induction s with
  | nil => intro _; rfl
  | cons c cs ih =>
      intro h
      rw [show containsCI pat (c :: cs) =
          (startsWithCI pat (c :: cs) || containsCI pat cs) from rfl] at h
      rw [Bool.or_eq_false_iff] at h
      simp only [stripLitCI.go, h.1, Bool.false_eq_true, if_false]
      exact congrArg (c :: ·) (ih h.2)

theorem stripLitCI_id (pat s : List Char) (h : containsCI pat s = false) :
    stripLitCI pat s = s :=
  stripLitCI_go_id pat s h

theorem replaceChar_id (t : Char) (repl : List Char) :
    ∀ s, (∀ c ∈ s, c ≠ t) → replaceChar t repl s = s := by
  intro s
  induction s with
  | nil => intro _; rfl
  | cons c cs ih =>
      intro h
      have hc : c ≠ t := h c (List.mem_cons_self c cs)
      simp only [replaceChar, if_neg hc, List.singleton_append]
      exact congrArg (c :: ·) (ih fun x hx => h x (List.mem_cons_of_mem c hx))

/-- **C3 (amended).** `sanitizeLlmResponse` is total by construction, but it
is *not* idempotent in general (each application re-escapes ampersands, see
`sanitizeLlmResponse_not_idempotent`); it is the identity — and hence
idempotent — on strings containing none of the escaped characters
`& < > " '` and no case-insensitive occurrence of `javascript:` or
`data:text/html`. -/
theorem sanitizeLlmResponse_conditional_idempotent (s : String)
    (h1 : ∀ c ∈ s.toList,
      c ≠ '&' ∧ c ≠ '<' ∧ c ≠ '>' ∧ c ≠ '"' ∧ c ≠ '\'')
    (h2 : containsCI "javascript:".toList s.toList = false)
    (h3 : containsCI "data:text/html".toList s.toList = false) :
    sanitizeLlmResponse s = s ∧
    sanitizeLlmResponse (sanitizeLlmResponse s) = sanitizeLlmResponse s := by
  have hangle : ∀ c ∈ s.toList, c ≠ '<' := fun c hc => (h1 c hc).2.1
  have hquote : ∀ c ∈ s.toList, isQuote c = false := by
    intro c hc
    have := h1 c hc
    simp [isQuote, this.2.2.2.1, this.2.2.2.2]
  have hid : sanitizeLlmResponse s = s := by
    simp only [sanitizeLlmResponse]
    rw [stripTagPair_id _ _ hangle, stripTagPair_id _ _ hangle,
      stripTagPair_id _ _ hangle, stripTagPair_id _ _ hangle,
      stripTagPair_id _ _ hangle, stripEventHandlers_id _ hquote,
      stripLitCI_id _ _ h2, stripLitCI_id _ _ h3]
    have hesc : escapeHtmlEntities s.toList = s.toList := by
      unfold escapeHtmlEntities
      rw [replaceChar_id _ _ _ (fun c hc => (h1 c hc).1),
        replaceChar_id _ _ _ (fun c hc => (h1 c hc).2.1),
        replaceChar_id _ _ _ (fun c hc => (h1 c hc).2.2.1),
        replaceChar_id _ _ _ (fun c hc => (h1 c hc).2.2.2.1),
        replaceChar_id _ _ _ (fun c hc => (h1 c hc).2.2.2.2)]
    rw [hesc]
    cases s
    rfl
  exact ⟨hid, by rw [hid]; exact hid⟩

theorem sanitizeLlmResponse_conditional_idempotent_witness :
    sanitizeLlmResponse (sanitizeLlmResponse "hello, world.") =
      sanitizeLlmResponse "hello, world." := by
  have h := sanitizeLlmResponse_conditional_idempotent "hello, world."
    (by decide) (by decide) (by decide)
  exact h.2

/-! ## Backend Registry (`src/lib/provider-registry.ts`) and the chat route
(`src/app/api/chat/route.ts`, `src/unnamed/part_000`)

A provider's `generateResponse` is an external capability: it is the abstract
field `gen providerId prompt apiKey model?` of the dispatch environment,
returning the generated text or the thrown (timeout / auth / transport)
error.  Each provider call is independently time-bounded in the source
(`withTimeout`, default 600 s); a timeout surfaces here as `gen` returning
`.error`. -/

/-- The registered metadata of an `LLMProvider` subclass. -/
structure Provider where
  id : String
  name : String
  displayName : String
  requiresApiKey : Bool
deriving Repr, DecidableEq

/-- `ProviderRegistry.get` (`provider-registry.ts:32-34`): `Map` lookup by the
provider's own `id`. -/
def ProviderRegistry.get (reg : List Provider) (id : String) :
    Option Provider :=
  reg.find? (fun p => p.id == id)

/-- The registry built in the `ProviderRegistry` constructor
(`provider-registry.ts:13-21`), with each provider's declared metadata. -/
def defaultRegistry : List Provider :=
  [⟨"openai", "OpenAI", "OpenAI (GPT)", true⟩,
   ⟨"anthropic", "Anthropic", "Anthropic (Claude)", true⟩,
   ⟨"google", "Google", "Google (Gemini)", true⟩,
   ⟨"cohere", "Cohere", "Cohere", true⟩,
   ⟨"grok", "Grok", "Grok (xAI)", true⟩,
   ⟨"ollama", "Ollama", "Ollama (Local)", false⟩]

/-- `ChatResponse` (`types/index.ts`): `content` is always a string (empty in
error results); `error` and `model` are optional. -/
structure ChatResponse where
  providerId : String
  content : String
  error : Option String
  model : Option String
deriving Repr, DecidableEq

/-- The dispatch environment of one `POST /api/chat` request: registry,
server-held secrets (`config.apiKeys`), caller-supplied secrets
(`body.apiKeys`), per-backend model overrides (`body.selectedModels`), and
the abstract per-provider `generateResponse`. -/
structure DispatchEnv where
  registry : List Provider
  serverKeys : String → Option String
  clientKeys : String → Option String
  selectedModels : String → Option String
  gen : String → String → String → Option String → Except JsError String

/-- `provider?.requiresApiKey ?? true` (`part_000:137`, `part_000:253`). -/
def providerRequiresKey (reg : List Provider) (id : String) : Bool :=
  match ProviderRegistry.get reg id with
  | some p => p.requiresApiKey
  | none => true

/-- The key-collection loop of the route (`part_000:131-152`): prefer a
non-empty server-held key, else a caller key with non-empty trim, else the
empty key for providers not requiring one, else record the id as missing. -/
def collectApiKeys (env : DispatchEnv) : List String →
    List (String × String) × List String
  | [] => ([], [])
  | providerId :: rest =>
      let serverKey := (env.serverKeys providerId).getD ""
      let clientKey := (env.clientKeys providerId).getD ""
      let (keys, missing) := collectApiKeys env rest
      if serverKey ≠ "" then ((providerId, serverKey) :: keys, missing)
      else if (jsTrim clientKey).length > 0 then
        ((providerId, clientKey) :: keys, missing)
      else if ¬ providerRequiresKey env.registry providerId = true then
        ((providerId, "") :: keys, missing)
      else (keys, providerId :: missing)

/-- One entry of the `Promise.allSettled` fan-out (`part_000:165-230`): the
callback catches every failure, so each promise fulfills with either a
content-tagged or an error-tagged `ChatResponse` (the `rejected` arm of
`part_000:235-248` is unreachable). -/
def dispatchOne (env : DispatchEnv) (finalKeys : List (String × String))
    (prompt providerId : String) : ChatResponse :=
  match ProviderRegistry.get env.registry providerId with
  | none => ⟨providerId, "", some "Provider not found", none⟩
  | some _ =>
      let apiKey := (finalKeys.lookup providerId).getD ""
      let model := env.selectedModels providerId
      match env.gen providerId prompt apiKey model with
      | .ok rawContent =>
          ⟨providerId, sanitizeLlmResponse rawContent, none, model⟩
      | .error e => ⟨providerId, "", some (sanitizeError e), model⟩

/-- Outcome of the dispatch stage: the 400 missing-keys error body
(`part_000:154-162`) or the aggregated response list. -/
inductive RouteOutcome where
  | missingKeysError (missing : List String)
  | ok (responses : List ChatResponse)
deriving Repr, DecidableEq

/-- The dispatch stage of `POST` (`part_000:131-248`), applied to the already
validated prompt and provider-id list.  The second component is the trace of
provider ids whose `generateResponse` is invoked (providers found in the
registry); it is empty when the request fails fast on missing keys. -/
def routeDispatch (env : DispatchEnv) (validatedPrompt : String)
    (validatedProviderIds : List String) : RouteOutcome × List String :=
  let (finalKeys, missingKeys) := collectApiKeys env validatedProviderIds
  if missingKeys.length > 0 then (.missingKeysError missingKeys, [])
  else
    (.ok (validatedProviderIds.map
        (dispatchOne env finalKeys validatedPrompt)),
     validatedProviderIds.filter
       (fun id => (ProviderRegistry.get env.registry id).isSome))

/-- The resolution `missingKeys` records for an id: no (non-empty) server key,
no caller key with non-empty trim, and the provider requires a key (an
unregistered id requires one by default). -/
def missingKeySpec (env : DispatchEnv) (id : String) : Bool :=
  ((env.serverKeys id).getD "" == "") &&
  ((jsTrim ((env.clientKeys id).getD "")).length == 0) &&
  providerRequiresKey env.registry id

theorem collectApiKeys_missing (env : DispatchEnv) (ids : List String) :
    (collectApiKeys env ids).2 = ids.filter (missingKeySpec env) := by
  induction ids with
  | nil => rfl
  | cons id rest ih =>
      cases hc : collectApiKeys env rest with
      | mk keys missing =>
          rw [hc] at ih
          simp only [collectApiKeys, hc, List.filter_cons]
          by_cases h1 : (env.serverKeys id).getD "" = ""
          · by_cases h2 : 0 < (jsTrim ((env.clientKeys id).getD "")).length
            · have hspec : missingKeySpec env id = false := by
                simp only [missingKeySpec]
                have : ((jsTrim ((env.clientKeys id).getD "")).length == 0)
                    = false := by
                  simp [Nat.pos_iff_ne_zero.mp h2]
                simp [this]
              rw [if_neg (fun hne => hne h1), if_pos h2, hspec]
              simpa using ih
            · by_cases h3 : providerRequiresKey env.registry id = true
              · have hspec : missingKeySpec env id = true := by
                  simp only [missingKeySpec]
                  have hz : (jsTrim ((env.clientKeys id).getD "")).length
                      = 0 := Nat.eq_zero_of_not_pos h2
                  simp [h1, hz, h3]
                rw [if_neg (fun hne => hne h1), if_neg h2,
                  if_neg (fun hcon => hcon h3), hspec]
                simpa using ih
              · have hspec : missingKeySpec env id = false := by
                  simp only [missingKeySpec]
                  have : providerRequiresKey env.registry id = false := by
                    cases hcase : providerRequiresKey env.registry id
                    · rfl
                    · exact absurd hcase h3
                  simp [this]
                rw [if_neg (fun hne => hne h1), if_neg h2, if_pos h3, hspec]
                simpa using ih
          · have hspec : missingKeySpec env id = false := by
              simp only [missingKeySpec]
              have : ((env.serverKeys id).getD "" == "") = false := by
                simp [h1]
              simp [this]
            rw [if_pos h1, hspec]
            simpa using ih




/-- **C2.** When at least one requested backend requires a secret but has
neither a (non-empty) server-held secret nor a caller-supplied secret, the
whole request fails fast with the 400 missing-keys error naming exactly every
such backend (in request order), and no `generate` call is made to any
backend — including those whose secrets did resolve (the trace of invoked
providers is empty). -/
theorem missing_keys_fail_fast (env : DispatchEnv) (prompt : String)
    (ids : List String)
    (h : ids.filter (missingKeySpec env) ≠ []) :
    routeDispatch env prompt ids =
      (.missingKeysError (ids.filter (missingKeySpec env)), []) ∧
    (∀ id, id ∈ ids.filter (missingKeySpec env) ↔
      (id ∈ ids ∧ missingKeySpec env id = true)) := by
  constructor
  · simp only [routeDispatch]
    cases hc : collectApiKeys env ids with
    | mk keys missing =>
        have hm : missing = ids.filter (missingKeySpec env) := by
          have h2 := collectApiKeys_missing env ids
          rw [hc] at h2
          exact h2
        have hlen : missing.length > 0 := by
          rw [hm]
          exact List.length_pos.mpr h
        rw [if_pos hlen, hm]
  · intro id
    exact List.mem_filter

theorem missing_keys_fail_fast_witness :
    ∃ missing, routeDispatch
      ⟨[⟨"x", "X", "X", true⟩, ⟨"y", "Y", "Y", true⟩, ⟨"z", "Z", "Z", true⟩],
       (fun id => if id = "x" then some "sk-x" else none),
       (fun id => if id = "y" then some "ck-y" else none),
       (fun _ => none),
       (fun _ _ _ _ => .ok "4")⟩
      "2+2?" ["x", "y", "z"] = (.missingKeysError missing, []) ∧
      missing = ["z"] := by
  have h := missing_keys_fail_fast
    ⟨[⟨"x", "X", "X", true⟩, ⟨"y", "Y", "Y", true⟩, ⟨"z", "Z", "Z", true⟩],
     (fun id => if id = "x" then some "sk-x" else none),
     (fun id => if id = "y" then some "ck-y" else none),
     (fun _ => none),
     (fun _ _ _ _ => .ok "4")⟩
    "2+2?" ["x", "y", "z"] (by decide)
  exact ⟨_, h.1, by decide⟩

theorem routeDispatch_ok (env : DispatchEnv) (prompt : String)
    (ids : List String) (h : ids.filter (missingKeySpec env) = []) :
    routeDispatch env prompt ids =
      (.ok (ids.map (dispatchOne env (collectApiKeys env ids).1 prompt)),
       ids.filter
         (fun id => (ProviderRegistry.get env.registry id).isSome)) := by
  simp only [routeDispatch]
  cases hc : collectApiKeys env ids with
  | mk keys missing =>
      have hm : missing = [] := by
        have h2 := collectApiKeys_missing env ids
        rw [hc] at h2
        simpa [h] using h2
      subst hm
      rw [if_neg (by simp)]

theorem dispatchOne_at_most_one (env : DispatchEnv)
    (fk : List (String × String)) (prompt id : String) :
    (dispatchOne env fk prompt id).error = none ∨
      (dispatchOne env fk prompt id).content = "" := by
  simp only [dispatchOne]
  cases ProviderRegistry.get env.registry id with
  | none => exact Or.inr rfl
  | some p =>
      cases env.gen id prompt ((fk.lookup id).getD "")
          (env.selectedModels id) with
      | ok raw => exact Or.inl rfl
      | error e => exact Or.inr rfl

theorem collectApiKeys_gen_irrel (env : DispatchEnv)
    (g' : String → String → String → Option String → Except JsError String)
    (ids : List String) :
    collectApiKeys { env with gen := g' } ids = collectApiKeys env ids := by
  induction ids with
  | nil => rfl
  | cons id rest ih => simp only [collectApiKeys, ih]

theorem dispatchOne_congr (env : DispatchEnv)
    (g' : String → String → String → Option String → Except JsError String)
    (fk : List (String × String)) (prompt id : String)
    (hg : ∀ k m, g' id prompt k m = env.gen id prompt k m) :
    dispatchOne { env with gen := g' } fk prompt id =
      dispatchOne env fk prompt id := by
  simp only [dispatchOne, hg]

/-- **C1 counterexample.** "Exactly one of content/error populated" fails: a
backend that succeeds with the raw text `"javascript:"` yields a result whose
sanitized content is the empty string and whose error is absent — neither
field is populated.  (`sanitizeLlmResponse` removes the `javascript:`
pattern entirely before escaping.) -/
theorem dispatch_neither_populated_counterexample :
    (routeDispatch
      ⟨[⟨"x", "X", "X", false⟩], (fun _ => none), (fun _ => none),
       (fun _ => none), (fun _ _ _ _ => .ok "javascript:")⟩
      "p" ["x"]).1 = .ok [⟨"x", "", none, none⟩] := by
  rfl

/-- **C1 (amended).** For every validated dispatch whose secrets all resolve:
the engine returns exactly one result per deduplicated requested backend id,
in request order (the validated list is the first-occurrence deduplication of
the requested list); each result carries *at most* one of content/error
populated — error-tagged results have empty content, successful results have
no error, and a successful call whose sanitized output is empty carries
neither; the result at each position is exactly the outcome of that backend's
own call; and the join is settle-all: changing the behaviour of every *other*
backend's `generate` (e.g. making it fail or time out) leaves a backend's own
result unchanged. -/
theorem dispatch_settle_all (env : DispatchEnv) (prompt : String)
    (rawIds ids : List String)
    (hval : validateProviderIds rawIds = .ok ids)
    (hnomiss : ids.filter (missingKeySpec env) = []) :
    (ids = jsSetDedup rawIds ∧ ids.Nodup) ∧
    (∃ responses,
      (routeDispatch env prompt ids).1 = .ok responses ∧
      responses.map ChatResponse.providerId = ids ∧
      (∀ r ∈ responses, r.error = none ∨ r.content = "") ∧
      (∀ i (hi : i < ids.length),
        responses[i]? = some (dispatchOne env (collectApiKeys env ids).1
          prompt ids[i]))) ∧
    (∀ (g' : String → String → String → Option String →
        Except JsError String) (i : Nat) (hi : i < ids.length),
      (∀ k m, g' ids[i] prompt k m = env.gen ids[i] prompt k m) →
      ∃ rs rs', (routeDispatch env prompt ids).1 = .ok rs ∧
        (routeDispatch { env with gen := g' } prompt ids).1 = .ok rs' ∧
        rs[i]? = rs'[i]?) := by
  refine ⟨?_, ?_, ?_⟩
  · -- the validated list is the deduplicated requested list
    by_cases h1 : rawIds.length = 0
    · rw [validateProviderIds_empty rawIds h1] at hval
      cases hval
    · by_cases h2 : 0 < (rawIds.filter
          (fun id => ! validProviderIds.contains id)).length
      · rw [validateProviderIds_invalid rawIds h1 h2] at hval
        cases hval
      · rw [validateProviderIds_ok rawIds h1 h2] at hval
        cases hval
        exact ⟨rfl, jsSetDedup_nodup rawIds⟩
  · refine ⟨ids.map (dispatchOne env (collectApiKeys env ids).1 prompt),
      ?_, ?_, ?_, ?_⟩
    · rw [routeDispatch_ok env prompt ids hnomiss]
    · rw [List.map_map]
      have hpt : ∀ id ∈ ids, (ChatResponse.providerId ∘
          dispatchOne env (collectApiKeys env ids).1 prompt) id = id := by
        intro id _
        simp only [Function.comp]
        simp only [dispatchOne]
        cases ProviderRegistry.get env.registry id with
        | none => rfl
        | some p =>
            cases env.gen id prompt
                (((collectApiKeys env ids).1.lookup id).getD "")
                (env.selectedModels id) with
            | ok raw => rfl
            | error e => rfl
      calc List.map (ChatResponse.providerId ∘
              dispatchOne env (collectApiKeys env ids).1 prompt) ids
          = List.map id ids := List.map_congr_left hpt
        _ = ids := List.map_id ids
    · intro r hr
      obtain ⟨id, _, rfl⟩ := List.mem_map.mp hr
      exact dispatchOne_at_most_one env _ prompt id
    · intro i hi
      rw [List.getElem?_map, List.getElem?_eq_getElem hi]
      rfl
  · intro g' i hi hg
    have hnomiss' : ids.filter (missingKeySpec { env with gen := g' }) = [] :=
      hnomiss
    refine ⟨ids.map (dispatchOne env (collectApiKeys env ids).1 prompt),
      ids.map (dispatchOne { env with gen := g' }
        (collectApiKeys { env with gen := g' } ids).1 prompt),
      by rw [routeDispatch_ok env prompt ids hnomiss],
      by rw [routeDispatch_ok { env with gen := g' } prompt ids hnomiss'],
      ?_⟩
    rw [List.getElem?_map, List.getElem?_map, List.getElem?_eq_getElem hi]
    show some (dispatchOne env (collectApiKeys env ids).1 prompt ids[i]) =
      some (dispatchOne { env with gen := g' }
        (collectApiKeys { env with gen := g' } ids).1 prompt ids[i])
    rw [collectApiKeys_gen_irrel env g' ids,
      dispatchOne_congr env g' (collectApiKeys env ids).1 prompt ids[i] hg]

theorem dispatch_settle_all_witness :
    ∃ responses,
      (routeDispatch
        ⟨defaultRegistry,
         (fun id => if id = "openai" then some "sk" else none),
         (fun _ => none), (fun _ => none),
         (fun p _ _ _ => if p = "openai"
           then .error ⟨"boom", none, false⟩ else .ok "4")⟩
        "2+2?" ["openai", "ollama"]).1 = .ok responses ∧
      responses.map ChatResponse.providerId = ["openai", "ollama"] := by
  have h := dispatch_settle_all
    ⟨defaultRegistry,
     (fun id => if id = "openai" then some "sk" else none),
     (fun _ => none), (fun _ => none),
     (fun p _ _ _ => if p = "openai"
       then .error ⟨"boom", none, false⟩ else .ok "4")⟩
    "2+2?" ["openai", "ollama", "openai"] ["openai", "ollama"]
    (by
      rw [validateProviderIds_ok ["openai", "ollama", "openai"]
        (by decide) (by decide)]
      exact congrArg Except.ok (by decide))
    (by decide)
  obtain ⟨_, ⟨responses, h1, h2, _, _⟩, _⟩ := h
  exact ⟨responses, h1, h2⟩

/-! ## Synthesis (moderator) pass (`src/lib/utils/moderator.ts` and
`part_000:250-341`)

The moderator provider's `generateResponse` is the abstract
`modGen : String → Except JsError String`, a function of the constructed
prompt (its api key and `{model}` options are fixed by the surrounding
request). -/

/-- `provider?.displayName || response.providerId` (`moderator.ts:12-13`). -/
def providerDisplayName (reg : List Provider) (r : ChatResponse) : String :=
  match ProviderRegistry.get reg r.providerId with
  | some p => if p.displayName ≠ "" then p.displayName else r.providerId
  | none => r.providerId

/-- One formatted entry of `formatResponsesForModerator`
(`moderator.ts:15-19`); `if (response.error)` is JS-truthy, so an empty error
string selects the content branch. -/
def moderatorLine (reg : List Provider) (r : ChatResponse) : String :=
  if (r.error.getD "") ≠ "" then
    "**" ++ providerDisplayName reg r ++ ":**\nError: " ++
      (r.error.getD "") ++ "\n"
  else
    "**" ++ providerDisplayName reg r ++ ":**\n" ++ r.content ++ "\n"

/-- JS `array.join('\n')`. -/
def joinNl : List String → String
  | [] => ""
  | [x] => x
  | x :: xs => x ++ "\n" ++ joinNl xs

/-- `formatResponsesForModerator` (`moderator.ts:8-23`). -/
def formatResponsesForModerator (reg : List Provider)
    (responses : List ChatResponse) : String :=
  joinNl (responses.map (moderatorLine reg))

/-- `createModeratorPrompt` (`moderator.ts:29-47`). -/
def createModeratorPrompt (reg : List Provider) (originalPrompt : String)
    (responses : List ChatResponse) : String :=
  "You are analyzing responses from multiple LLM providers. The user's original request was:\n\n\"" ++
  originalPrompt ++
  "\"\n\nHere are the responses from each provider:\n\n" ++
  formatResponsesForModerator reg responses ++
  "\n\nPlease compare and analyze these responses in relation to the user's original request. Provide your comparison in markdown format, highlighting:\n- Areas of consensus\n- Key differences\n- How well each response addresses the user's request\n- Your insights and analysis\n\nFormat your response as clear, well-structured markdown."

/-- The moderator-key resolution of `part_000:256-265`: prefer the non-empty
server-held key, else a caller key with non-empty trim, else the empty key
when the provider does not require one, else `undefined`. -/
def resolveModeratorKey (env : DispatchEnv) (pid : String) : Option String :=
  if (env.serverKeys pid).getD "" ≠ "" then some ((env.serverKeys pid).getD "")
  else if (jsTrim ((env.clientKeys pid).getD "")).length > 0 then
    some ((env.clientKeys pid).getD "")
  else if ¬ providerRequiresKey env.registry pid = true then some ""
  else none

/-- `body.moderator` (`types/index.ts`). -/
structure ModeratorConfig where
  enabled : Bool
  providerId : String
  model : String
deriving Repr, DecidableEq

/-- The moderator stage of `POST` (`part_000:250-341`), applied to the
aggregated `responses`. -/
def moderatorStage (env : DispatchEnv)
    (modGen : String → Except JsError String)
    (moderator : Option ModeratorConfig) (validatedPrompt : String)
    (validatedProviderIds : List String)
    (responses : List ChatResponse) : List ChatResponse :=
  match moderator with
  | none => responses
  | some m =>
      if m.enabled = true ∧ m.providerId ≠ "" ∧ m.model ≠ "" then
        let moderatorApiKey := resolveModeratorKey env m.providerId
        if moderatorApiKey = none ∧
            providerRequiresKey env.registry m.providerId = true then
          responses ++
            [⟨"moderator", "", some "Missing API key for moderator provider",
              none⟩]
        else if validatedProviderIds.length = 0 then
          responses ++
            [⟨"moderator", "", some "No providers selected for comparison",
              none⟩]
        else
          match ProviderRegistry.get env.registry m.providerId with
          | none =>
              responses ++
                [⟨"moderator", "", some "Moderator provider not found", none⟩]
          | some _ =>
              match modGen (createModeratorPrompt env.registry
                  validatedPrompt responses) with
              | .ok raw =>
                  responses ++
                    [⟨"moderator", sanitizeLlmResponse raw, none,
                      some m.model⟩]
              | .error e =>
                  responses ++
                    [⟨"moderator", "", some (sanitizeError e), some m.model⟩]
      else responses

theorem toList_append (a b : String) :
    (a ++ b).toList = a.toList ++ b.toList :=
  String.data_append a b

theorem joinNl_infix (l : List String) (x : String) (h : x ∈ l) :
    x.toList <:+: (joinNl l).toList := by
  induction l with
  | nil => cases h
  | cons y ys ih =>
      rcases List.mem_cons.mp h with rfl | h'
      · cases ys with
        | nil => exact ⟨[], [], by simp [joinNl]⟩
        | cons z zs =>
            exact ⟨[], ("\n" ++ joinNl (z :: zs)).toList,
              by simp [joinNl, toList_append, List.append_assoc]⟩
      · cases ys with
        | nil => cases h'
        | cons z zs =>
            refine (ih h').trans ⟨(y ++ "\n").toList, [], ?_⟩
            simp [joinNl, toList_append, List.append_assoc]

theorem moderatorLine_infix_prompt (reg : List Provider) (prompt : String)
    (responses : List ChatResponse) (r : ChatResponse) (h : r ∈ responses) :
    (moderatorLine reg r).toList <:+:
      (createModeratorPrompt reg prompt responses).toList := by
  have h1 : (moderatorLine reg r).toList <:+:
      (formatResponsesForModerator reg responses).toList :=
    joinNl_infix _ _ (List.mem_map_of_mem (moderatorLine reg) h)
  refine h1.trans ?_
  refine ⟨("You are analyzing responses from multiple LLM providers. The user's original request was:\n\n\"" ++
    prompt ++ "\"\n\nHere are the responses from each provider:\n\n").toList,
    "\n\nPlease compare and analyze these responses in relation to the user's original request. Provide your comparison in markdown format, highlighting:\n- Areas of consensus\n- Key differences\n- How well each response addresses the user's request\n- Your insights and analysis\n\nFormat your response as clear, well-structured markdown.".toList,
    ?_⟩
  simp only [createModeratorPrompt, toList_append, List.append_assoc]

/-- **C9.** When a synthesis (moderator) pass is requested — enabled, with a
provider id and model, a resolvable credential, a non-empty dispatch list and
a registered moderator provider — exactly one moderator-tagged result is
appended and the other backends' results are returned unchanged, even when
some of them are error-tagged; the synthesis call receives the constructed
prompt `createModeratorPrompt`, which contains the original user prompt and,
for every backend result, the provider's display name together with its
content (on success) or its recorded error text (on failure); if the
synthesis call itself fails, the appended result is error-tagged exactly like
a backend failure. -/
theorem synthesis_pass (env : DispatchEnv)
    (modGen : String → Except JsError String) (m : ModeratorConfig)
    (prompt : String) (ids : List String) (responses : List ChatResponse)
    (hen : m.enabled = true) (hpid : m.providerId ≠ "")
    (hmodel : m.model ≠ "")
    (hkey : resolveModeratorKey env m.providerId ≠ none)
    (hids : ids.length ≠ 0)
    (hprov : (ProviderRegistry.get env.registry m.providerId).isSome
      = true) :
    (∃ r, moderatorStage env modGen (some m) prompt ids responses =
        responses ++ [r] ∧ r.providerId = "moderator" ∧
      ((∃ raw, modGen (createModeratorPrompt env.registry prompt responses)
            = .ok raw ∧
          r = ⟨"moderator", sanitizeLlmResponse raw, none, some m.model⟩) ∨
       (∃ e, modGen (createModeratorPrompt env.registry prompt responses)
            = .error e ∧
          r = ⟨"moderator", "", some (sanitizeError e), some m.model⟩))) ∧
    prompt.toList <:+:
      (createModeratorPrompt env.registry prompt responses).toList ∧
    (∀ r ∈ responses,
      (providerDisplayName env.registry r).toList <:+:
        (createModeratorPrompt env.registry prompt responses).toList ∧
      (if (r.error.getD "") ≠ "" then (r.error.getD "").toList
       else r.content.toList) <:+:
        (createModeratorPrompt env.registry prompt responses).toList) := by
  refine ⟨?_, ?_, ?_⟩
  · obtain ⟨p, hp⟩ := Option.isSome_iff_exists.mp hprov
    simp only [moderatorStage]
    rw [if_pos ⟨hen, hpid, hmodel⟩,
      if_neg (fun hcon => hkey hcon.1), if_neg hids, hp]
    cases hg : modGen (createModeratorPrompt env.registry prompt
        responses) with
    | ok raw =>
        exact ⟨_, rfl, rfl, Or.inl ⟨raw, rfl, rfl⟩⟩
    | error e =>
        exact ⟨_, rfl, rfl, Or.inr ⟨e, rfl, rfl⟩⟩
  · refine ⟨"You are analyzing responses from multiple LLM providers. The user's original request was:\n\n\"".toList,
      ("\"\n\nHere are the responses from each provider:\n\n" ++
        formatResponsesForModerator env.registry responses ++
        "\n\nPlease compare and analyze these responses in relation to the user's original request. Provide your comparison in markdown format, highlighting:\n- Areas of consensus\n- Key differences\n- How well each response addresses the user's request\n- Your insights and analysis\n\nFormat your response as clear, well-structured markdown.").toList,
      ?_⟩
    simp only [createModeratorPrompt, toList_append, List.append_assoc]
  · intro r hr
    have hline := moderatorLine_infix_prompt env.registry prompt
      responses r hr
    constructor
    · refine List.IsInfix.trans ?_ hline
      by_cases he : (r.error.getD "") ≠ ""
      · exact ⟨"**".toList,
          (":**\nError: " ++ (r.error.getD "") ++ "\n").toList,
          by simp [moderatorLine, he, toList_append, List.append_assoc]⟩
      · exact ⟨"**".toList, (":**\n" ++ r.content ++ "\n").toList,
          by simp [moderatorLine, he, toList_append, List.append_assoc]⟩
    · refine List.IsInfix.trans ?_ hline
      by_cases he : (r.error.getD "") ≠ ""
      · rw [if_pos he]
        exact ⟨("**" ++ providerDisplayName env.registry r ++
            ":**\nError: ").toList, "\n".toList,
          by simp [moderatorLine, he, toList_append, List.append_assoc]⟩
      · rw [if_neg he]
        exact ⟨("**" ++ providerDisplayName env.registry r ++
            ":**\n").toList, "\n".toList,
          by simp [moderatorLine, he, toList_append, List.append_assoc]⟩

theorem synthesis_pass_witness :
    ∃ r, moderatorStage
        ⟨defaultRegistry, (fun _ => none), (fun _ => none), (fun _ => none),
         (fun _ _ _ _ => .ok "4")⟩
        (fun _ => .ok "merged") (some ⟨true, "ollama", "llama3"⟩) "2+2?"
        ["openai"]
        [⟨"openai", "4", none, none⟩,
         ⟨"anthropic", "", some "Invalid API key", none⟩] =
      [⟨"openai", "4", none, none⟩,
       ⟨"anthropic", "", some "Invalid API key", none⟩] ++ [r] ∧
      r.providerId = "moderator" := by
  have h := synthesis_pass
    ⟨defaultRegistry, (fun _ => none), (fun _ => none), (fun _ => none),
     (fun _ _ _ _ => .ok "4")⟩
    (fun _ => .ok "merged") ⟨true, "ollama", "llama3"⟩ "2+2?" ["openai"]
    [⟨"openai", "4", none, none⟩,
     ⟨"anthropic", "", some "Invalid API key", none⟩]
    rfl (by decide) (by decide) (by decide) (by decide) (by decide)
  obtain ⟨⟨r, h1, h2, _⟩, _, _⟩ := h
  exact ⟨r, h1, h2⟩

end LlmCompare
